import Mathlib

/-!
Shallow embedding of `graph-gen/nyc/segmentize.ipynb`.

The notebook is a linear geopandas pipeline:
* load NTA boundary polygons and assign (not transform) their CRS to EPSG:2263;
* load one of two street/sidewalk line datasets, chosen by the flag
  `USE_SIDEWALK_WIDTHS` (the `False` branch reprojects to EPSG:2263 at load,
  and later overwrites the geometry with `simplify(10)`);
* `segmentize(50).extract_unique_points().explode(index_parts=True)`,
  then `reset_index()` giving columns `level_0` (parent row index),
  `level_1` (point index within the parent) and the point geometry;
* merge back onto the street table via `level_0` against the row index,
  drop `level_0`, `level_1` and the old line geometry, keep the point;
* `to_crs('EPSG:2263')`, clip to the NTA of interest (visualisation only),
  and `to_csv` the full table (pandas writes the row index by default).

Geometry is embedded with exact rational coordinates.  A line string is its
vertex list.  `segmentize` follows the GEOS densifier: every segment of
length `L` is split into `ceil(L / maxLen)` equal parts; `simplify` follows
the GEOS Douglas-Peucker simplifier with squared tolerances.  CRS transforms
are an abstract parameter `tr`; `to_crs` to the CRS a table already carries
is the identity on coordinates.
-/

abbrev Point : Type := ℚ × ℚ

/-- Squared euclidean distance between two points. -/
def sqDist (p q : Point) : ℚ := (p.1 - q.1) ^ 2 + (p.2 - q.2) ^ 2

/-- Affine interpolation from `p` (at `t = 0`) to `q` (at `t = 1`). -/
def lerp (p q : Point) (t : ℚ) : Point :=
  (p.1 + t * (q.1 - p.1), p.2 + t * (q.2 - p.2))

/-- Fuel-bounded search for the least `n` (at or above the start index) with
`r ≤ n ^ 2`. -/
def ceilSqrtFrom (r : ℚ) : ℕ → ℕ → ℕ
  | n, 0 => n
  | n, fuel + 1 => if r ≤ ((n : ℚ)) ^ 2 then n else ceilSqrtFrom r (n + 1) fuel

/-- Least `n : ℕ` with `r ≤ n ^ 2` (the ceiling of the square root). -/
def ceilSqrtQ (r : ℚ) : ℕ := ceilSqrtFrom r 0 (r.num.toNat + 2)

/-- Number of equal parts the GEOS densifier cuts the segment `p q` into at
maximal segment length `d`: `ceil (dist p q / d)`, and at least one. -/
def nParts (d : ℚ) (p q : Point) : ℕ := max 1 (ceilSqrtQ (sqDist p q / d ^ 2))

/-- The vertices the densifier produces on segment `p q` after `p` itself:
the interior cut points followed by `q`. -/
def segPts (d : ℚ) (p q : Point) : List Point :=
  (List.range (nParts d p q)).map
    (fun i : ℕ => lerp p q ((((i : ℕ) : ℚ) + 1) / ((nParts d p q : ℕ) : ℚ)))

/-- Densified vertices strictly after the head vertex `p`. -/
def densifySegs (d : ℚ) : Point → List Point → List Point
  | _, [] => []
  | p, q :: rest => segPts d p q ++ densifySegs d q rest

/-- `shapely.segmentize(d)` on a line string: insert vertices so that no
segment is longer than `d`, splitting each segment into equal parts. -/
def segmentizeLine (d : ℚ) : List Point → List Point
  | [] => []
  | p :: rest => p :: densifySegs d p rest

/-- Deduplication keeping first occurrences, with accumulator. -/
def uniqAux : List Point → List Point → List Point
  | acc, [] => acc
  | acc, p :: rest => if p ∈ acc then uniqAux acc rest else uniqAux (acc ++ [p]) rest

/-- `extract_unique_points`: the distinct vertex values in order of first
appearance. -/
def uniquePoints (l : List Point) : List Point := uniqAux [] l

/-- The per-line output of
`segmentize(50).extract_unique_points().explode(...)` at spacing `d`:
one point per unique vertex of the densified line. -/
def segPointsOfLine (d : ℚ) (l : List Point) : List Point :=
  uniquePoints (segmentizeLine d l)

/-- Squared distance from `x` to the closed segment `a b`. -/
def segSqDist (a b x : Point) : ℚ :=
  if sqDist a b = 0 then sqDist a x
  else
    sqDist x (lerp a b (max 0 (min 1
      (((x.1 - a.1) * (b.1 - a.1) + (x.2 - a.2) * (b.2 - a.2)) / sqDist a b))))

/-- Index and value of the first maximal value of `f` on a list. -/
def maxIdx (f : Point → ℚ) : List Point → Option (ℕ × ℚ)
  | [] => none
  | p :: rest =>
    match maxIdx f rest with
    | none => some (0, f p)
    | some jm => if f p < jm.2 then some (jm.1 + 1, jm.2) else some (0, f p)

/-- The index of the farthest interior vertex from the chord (on a list with
at least three vertices the interior list is nonempty, so the `getD` default
is never taken). -/
def farthestIdx (tol2 : ℚ) (l : List Point) : ℕ × ℚ :=
  (maxIdx (segSqDist l.head! l.getLast!) ((l.drop 1).dropLast)).getD (0, tol2)

/-- `simplify(tol)` (GEOS Douglas-Peucker, squared tolerance `tol2`):
keep the endpoints; if the farthest interior vertex is within tolerance of
the chord, drop all interior vertices, otherwise split there and recurse.
The split index is an interior position, so the `min` in the left recursive
call is the identity; it only makes the length decrease structural. -/
def dp (tol2 : ℚ) (l : List Point) : List Point :=
  if l.length < 3 then l
  else
    if (farthestIdx tol2 l).2 ≤ tol2 then [l.head!, l.getLast!]
    else
      dp tol2 (l.take (min ((farthestIdx tol2 l).1 + 2) (l.length - 1)))
        ++ (dp tol2 (l.drop ((farthestIdx tol2 l).1 + 1))).drop 1
termination_by l.length
decreasing_by
  · simp only [List.length_take]
    omega
  · simp only [List.length_drop]
    omega

/- ## Tables -/

abbrev Attr : Type := List (String × String)

abbrev NtaPoly : Type := List Point

structure LinesTable where
  rows : List (Attr × List Point)
  crs : String

structure PointsTable where
  rows : List (Attr × Point)
  crs : String

structure NtaTable where
  rows : List (String × NtaPoly)
  crs : String

/-- `gpd.read_file` on the NTA shapefile: the file's features and the file's
own CRS metadata. -/
def readFileNtas (fileRows : List (String × NtaPoly)) (fileCrs : String) : NtaTable :=
  { rows := fileRows, crs := fileCrs }

/-- `nyc_ntas.crs = "EPSG:2263"`: assigning the `crs` property overrides the
CRS metadata only; coordinates are not transformed. -/
def assignCrs (c : String) (t : NtaTable) : NtaTable :=
  { rows := t.rows, crs := c }

/-- The notebook's `nyc_ntas` value. -/
def nycNtas (fileRows : List (String × NtaPoly)) (fileCrs : String) : NtaTable :=
  assignCrs "EPSG:2263" (readFileNtas fileRows fileCrs)

/-- `to_crs` on a lines table: reproject every vertex with the abstract
transform family `tr` and set the CRS; reprojecting to the CRS already
carried is the identity on coordinates. -/
def toCrsLines (tr : String → String → Point → Point) (c : String)
    (t : LinesTable) : LinesTable :=
  if t.crs = c then { rows := t.rows, crs := c }
  else { rows := t.rows.map (fun row => (row.1, row.2.map (tr t.crs c))), crs := c }

/-- `to_crs` on a points table. -/
def toCrsPoints (tr : String → String → Point → Point) (c : String)
    (t : PointsTable) : PointsTable :=
  if t.crs = c then { rows := t.rows, crs := c }
  else { rows := t.rows.map (fun row => (row.1, tr t.crs c row.2)), crs := c }

/-- The notebook's `nyc_streets` as loaded: flag `True` reads the
sidewalk-widths file as is; flag `False` reads the sidewalk file and
reprojects it to EPSG:2263. -/
def loadStreets (tr : String → String → Point → Point) (flag : Bool)
    (sidewalkFile widthsFile : LinesTable) : LinesTable :=
  if flag then widthsFile else toCrsLines tr "EPSG:2263" sidewalkFile

/-- The conditional simplification cell: when the flag is `False` the street
geometry column is overwritten with `simplify(10)`. -/
def simplifyStep (flag : Bool) (t : LinesTable) : LinesTable :=
  if flag then t
  else { rows := t.rows.map (fun row => (row.1, dp 100 row.2)), crs := t.crs }

/-- The street table whose geometry feeds `segmentize(50)`. -/
def nycStreetsFinal (tr : String → String → Point → Point) (flag : Bool)
    (sidewalkFile widthsFile : LinesTable) : LinesTable :=
  simplifyStep flag (loadStreets tr flag sidewalkFile widthsFile)

/-- `segmentize(50).extract_unique_points().explode(index_parts=True)`
followed by `reset_index()`: one row `(level_0, level_1, point)` per unique
point, `level_0` the parent row's position, `level_1` the point's position
within the parent. -/
def segmentizeExplode (t : LinesTable) : List (ℕ × ℕ × Point) :=
  t.rows.enum.flatMap
    (fun ir => (segPointsOfLine 50 ir.2.2).enum.map (fun jp => (ir.1, jp.1, jp.2)))

/-- The merge cell: inner-join each point row's `level_0` against the street
table's row index, drop `level_0`, `level_1` and the parent line geometry,
and keep the point as the new geometry. -/
def mergeRejoin (pts : List (ℕ × ℕ × Point)) (t : LinesTable) : List (Attr × Point) :=
  pts.filterMap (fun r => (t.rows[r.1]?).map (fun row => (row.1, r.2.2)))

/-- The rejoined point table, still in the street table's CRS. -/
def segmentizedRaw (t : LinesTable) : PointsTable :=
  { rows := mergeRejoin (segmentizeExplode t) t, crs := t.crs }

/-- The notebook's `segmentized` after `to_crs('EPSG:2263')`. -/
def segmentizedFinal (tr : String → String → Point → Point) (flag : Bool)
    (sidewalkFile widthsFile : LinesTable) : PointsTable :=
  toCrsPoints tr "EPSG:2263"
    (segmentizedRaw (nycStreetsFinal tr flag sidewalkFile widthsFile))

/-- `gpd.clip(segmentized, nta_crop)` with `nta_crop` the NTAs named `noi`:
keep exactly the point rows inside one of those polygons. -/
def clipPoints (inside : Point → NtaPoly → Bool) (t : PointsTable)
    (ntas : NtaTable) (noi : String) : PointsTable :=
  { rows := t.rows.filter (fun row => ntas.rows.any (fun nr => nr.1 == noi && inside row.2 nr.2)),
    crs := t.crs }

/-- `to_csv` with the default `index=True`: the table's rows with the row
index written as an explicit leading column. -/
def exportCSV (t : PointsTable) : List (ℕ × Attr × Point) := t.rows.enum

/-- The exported flat file of the notebook. -/
def exportedFile (tr : String → String → Point → Point) (flag : Bool)
    (sidewalkFile widthsFile : LinesTable) : List (ℕ × Attr × Point) :=
  exportCSV (segmentizedFinal tr flag sidewalkFile widthsFile)

/-- Number of derived points per input line. -/
def countsPerLine (t : LinesTable) : List ℕ :=
  t.rows.map (fun row => (segPointsOfLine 50 row.2).length)

/- ## Geometric predicates for the specification statements -/

/-- Consecutive vertex pairs of a line string. -/
def adjPairs : List Point → List (Point × Point)
  | p :: q :: rest => (p, q) :: adjPairs (q :: rest)
  | _ => []

/-- `x` lies on the closed segment from `a` to `b`. -/
def onSegment (a b x : Point) : Prop := ∃ t : ℚ, 0 ≤ t ∧ t ≤ 1 ∧ x = lerp a b t

/-- `x` lies on the line string `l` (on one of its segments). -/
def pointOnLine (x : Point) (l : List Point) : Prop :=
  ∃ ab ∈ adjPairs l, onSegment ab.1 ab.2 x

/- ## Basic lemmas about the densifier arithmetic -/

theorem ceilSqrtFrom_spec (r : ℚ) :
    ∀ fuel k, r ≤ (((k + fuel : ℕ) : ℚ)) ^ 2 →
      r ≤ ((ceilSqrtFrom r k fuel : ℕ) : ℚ) ^ 2 := by
  intro fuel
  induction fuel with
  | zero => intro k h; simpa [ceilSqrtFrom] using h
  | succ f ih =>
    intro k h
    rw [ceilSqrtFrom]
    by_cases hc : r ≤ ((k : ℚ)) ^ 2
    · simpa [hc]
    · rw [if_neg hc]
      apply ih
      have he : k + 1 + f = k + (f + 1) := by omega
      rw [he]
      exact h

theorem ceilSqrtFrom_min (r : ℚ) :
    ∀ fuel k, (∀ m : ℕ, m < k → ¬ r ≤ ((m : ℚ)) ^ 2) →
      ∀ m : ℕ, m < ceilSqrtFrom r k fuel → ¬ r ≤ ((m : ℚ)) ^ 2 := by
  intro fuel
  induction fuel with
  | zero => intro k h; simpa [ceilSqrtFrom] using h
  | succ f ih =>
    intro k h
    rw [ceilSqrtFrom]
    by_cases hc : r ≤ ((k : ℚ)) ^ 2
    · rw [if_pos hc]; exact h
    · rw [if_neg hc]
      apply ih
      intro m hm
      rcases Nat.lt_succ_iff_lt_or_eq.mp hm with h' | h'
      · exact h m h'
      · subst h'; exact hc

theorem rat_le_fuel_sq (r : ℚ) : r ≤ (((r.num.toNat + 2 : ℕ) : ℚ)) ^ 2 := by
  rcases le_or_lt r 0 with h | h
  · exact h.trans (by positivity)
  · have hnum : (0 : ℤ) < r.num := Rat.num_pos.mpr h
    have hd : (1 : ℚ) ≤ (r.den : ℚ) := by exact_mod_cast Nat.succ_le_of_lt r.den_pos
    have h1 : r ≤ (r.num : ℚ) := by
      conv_lhs => rw [← Rat.num_div_den r]
      apply div_le_self (by exact_mod_cast hnum.le) hd
    have h2 : (r.num : ℚ) = ((r.num.toNat : ℕ) : ℚ) := by
      exact_mod_cast (Int.toNat_of_nonneg hnum.le).symm
    have h3 : ((r.num.toNat : ℕ) : ℚ) ≤ (((r.num.toNat + 2 : ℕ) : ℚ)) := by
      push_cast; linarith
    have h4 : (((r.num.toNat + 2 : ℕ) : ℚ)) ≤ (((r.num.toNat + 2 : ℕ) : ℚ)) ^ 2 := by
      have h5 : (1 : ℚ) ≤ (((r.num.toNat + 2 : ℕ) : ℚ)) := by
        push_cast
        linarith [Nat.cast_nonneg (α := ℚ) r.num.toNat]
      nlinarith
    linarith [h2 ▸ h1]

theorem ceilSqrtQ_spec (r : ℚ) : r ≤ ((ceilSqrtQ r : ℕ) : ℚ) ^ 2 := by
  apply ceilSqrtFrom_spec
  simpa using rat_le_fuel_sq r

/-- `ceilSqrtQ` is the least `n` with `r ≤ n ^ 2`. -/
theorem ceilSqrtQ_eq {r : ℚ} {n : ℕ} (hle : r ≤ ((n : ℚ)) ^ 2)
    (hgt : ∀ m : ℕ, m < n → ¬ r ≤ ((m : ℚ)) ^ 2) : ceilSqrtQ r = n := by
  have hspec := ceilSqrtQ_spec r
  have hmin : ∀ m : ℕ, m < ceilSqrtQ r → ¬ r ≤ ((m : ℚ)) ^ 2 := by
    apply ceilSqrtFrom_min
    intro m hm
    omega
  rcases Nat.lt_trichotomy (ceilSqrtQ r) n with h | h | h
  · exact absurd hspec (hgt _ h)
  · exact h
  · exact absurd hle (hmin _ h)

theorem nParts_eval {d : ℚ} {p q : Point} (L2 : ℚ) {n : ℕ} (hL : sqDist p q = L2)
    (h : ceilSqrtQ (L2 / d ^ 2) = n) : nParts d p q = max 1 n := by
  rw [nParts, hL, h]

theorem sqDist_nonneg (p q : Point) : 0 ≤ sqDist p q := by
  rw [sqDist]; positivity

theorem lerp_zero (p q : Point) : lerp p q 0 = p := by
  rcases p with ⟨px, py⟩
  simp [lerp]

theorem lerp_one (p q : Point) : lerp p q 1 = q := by
  rcases q with ⟨qx, qy⟩
  simp only [lerp, Prod.mk.injEq]
  constructor <;> ring

theorem sqDist_lerp_lerp (p q : Point) (s t : ℚ) :
    sqDist (lerp p q s) (lerp p q t) = (s - t) ^ 2 * sqDist p q := by
  simp only [lerp, sqDist]
  ring

theorem nParts_pos (d : ℚ) (p q : Point) : 1 ≤ nParts d p q :=
  Nat.le_max_left 1 _

theorem nParts_bound {d : ℚ} (hd : 0 < d) (p q : Point) :
    sqDist p q ≤ ((nParts d p q : ℕ) : ℚ) ^ 2 * d ^ 2 := by
  have hc := ceilSqrtQ_spec (sqDist p q / d ^ 2)
  have hle : ((ceilSqrtQ (sqDist p q / d ^ 2) : ℕ) : ℚ) ≤ ((nParts d p q : ℕ) : ℚ) := by
    exact_mod_cast Nat.le_max_right 1 _
  have hsq : ((ceilSqrtQ (sqDist p q / d ^ 2) : ℕ) : ℚ) ^ 2 ≤ ((nParts d p q : ℕ) : ℚ) ^ 2 := by
    apply pow_le_pow_left (by positivity) hle
  have hd2 : (0 : ℚ) < d ^ 2 := by positivity
  have := (div_le_iff hd2).mp (hc.trans hsq)
  linarith

theorem nParts_cast_pos (d : ℚ) (p q : Point) : (0 : ℚ) < ((nParts d p q : ℕ) : ℚ) := by
  exact_mod_cast Nat.lt_of_lt_of_le Nat.zero_lt_one (nParts_pos d p q)

theorem step_bound {d : ℚ} (hd : 0 < d) (p q : Point) (j : ℕ) :
    sqDist (lerp p q ((j : ℚ) / ((nParts d p q : ℕ) : ℚ)))
      (lerp p q (((j : ℚ) + 1) / ((nParts d p q : ℕ) : ℚ))) ≤ d ^ 2 := by
  have hn := nParts_cast_pos d p q
  have hn0 : ((nParts d p q : ℕ) : ℚ) ≠ 0 := ne_of_gt hn
  rw [sqDist_lerp_lerp]
  have ht : ((j : ℚ) / ((nParts d p q : ℕ) : ℚ) - ((j : ℚ) + 1) / ((nParts d p q : ℕ) : ℚ)) ^ 2
      = 1 / ((nParts d p q : ℕ) : ℚ) ^ 2 := by
    rw [div_sub_div_same, show (j : ℚ) - ((j : ℚ) + 1) = -1 by ring, div_pow]
    norm_num
  rw [ht]
  have hb := nParts_bound hd p q
  rw [div_mul_eq_mul_div, one_mul, div_le_iff (by positivity)]
  linarith

theorem segPts_length (d : ℚ) (p q : Point) : (segPts d p q).length = nParts d p q := by
  rw [segPts, List.length_map, List.length_range]

theorem segPts_get (d : ℚ) (p q : Point) (j : ℕ) (hj : j < (segPts d p q).length) :
    (segPts d p q).get ⟨j, hj⟩
      = lerp p q (((j : ℚ) + 1) / ((nParts d p q : ℕ) : ℚ)) := by
  simp only [segPts, List.get_map, List.get_range]

theorem chain'_cons_segPts {d : ℚ} (hd : 0 < d) (p q : Point) :
    List.Chain' (fun a b => sqDist a b ≤ d ^ 2) (p :: segPts d p q) := by
  rw [List.chain'_iff_get]
  intro i hi
  simp only [List.length_cons, segPts_length, Nat.add_sub_cancel] at hi
  cases i with
  | zero =>
    simp only [List.get]
    rw [segPts_get]
    have hs := step_bound hd p q 0
    rw [show ((0 : ℕ) : ℚ) / ((nParts d p q : ℕ) : ℚ) = 0 by norm_num] at hs
    rw [lerp_zero] at hs
    simpa using hs
  | succ j =>
    simp only [List.get]
    rw [segPts_get, segPts_get]
    have hs := step_bound hd p q (j + 1)
    push_cast at hs ⊢
    convert hs using 4 <;> ring

theorem segPts_ne_nil (d : ℚ) (p q : Point) : segPts d p q ≠ [] := by
  intro h
  have h1 := segPts_length d p q
  rw [h] at h1
  have h2 := nParts_pos d p q
  simp only [List.length_nil] at h1
  omega

theorem segPts_getLast? (d : ℚ) (p q : Point) : (segPts d p q).getLast? = some q := by
  rw [segPts, List.getLast?_map, List.getLast?_range]
  have h1 : nParts d p q ≠ 0 := by have := nParts_pos d p q; omega
  rw [if_neg h1]
  simp only [Option.map_some']
  congr 1
  have hc : (((nParts d p q - 1 : ℕ)) : ℚ) = ((nParts d p q : ℕ) : ℚ) - 1 := by
    have := nParts_pos d p q
    push_cast [Nat.cast_sub this]
    ring
  rw [hc]
  have hn0 : ((nParts d p q : ℕ) : ℚ) ≠ 0 := ne_of_gt (nParts_cast_pos d p q)
  rw [show ((nParts d p q : ℕ) : ℚ) - 1 + 1 = ((nParts d p q : ℕ) : ℚ) by ring]
  rw [div_self hn0, lerp_one]

theorem chain'_cons_densify {d : ℚ} (hd : 0 < d) :
    ∀ (rest : List Point) (p : Point),
      List.Chain' (fun a b => sqDist a b ≤ d ^ 2) (p :: densifySegs d p rest) := by
  intro rest
  induction rest with
  | nil => intro p; simp [densifySegs]
  | cons q rest' ih =>
    intro p
    have hsplit : p :: densifySegs d p (q :: rest')
        = (p :: segPts d p q) ++ densifySegs d q rest' := by
      simp [densifySegs]
    rw [hsplit]
    apply List.Chain'.append (chain'_cons_segPts hd p q) (ih q).tail
    intro x hx y hy
    have hlast : (p :: segPts d p q).getLast? = some q := by
      rw [List.getLast?_cons, segPts_getLast? d p q]
      rfl
    rw [hlast] at hx
    simp only [Option.mem_def, Option.some.injEq] at hx
    subst hx
    have hq := (List.chain'_cons'.mp (ih q)).1
    exact hq y hy

/-- The densified line has consecutive vertices at squared distance at most
`d ^ 2`. -/
theorem segmentize_chain {d : ℚ} (hd : 0 < d) (l : List Point) :
    List.Chain' (fun a b => sqDist a b ≤ d ^ 2) (segmentizeLine d l) := by
  cases l with
  | nil => simp [segmentizeLine]
  | cons p rest => exact chain'_cons_densify hd rest p

/- ## Membership lemmas: produced points lie on the original line -/

theorem mem_segPts_onSegment {d : ℚ} {p q x : Point} (h : x ∈ segPts d p q) :
    onSegment p q x := by
  rw [segPts] at h
  rcases List.mem_map.mp h with ⟨i, hi, hx⟩
  rcases List.mem_range.mp hi with hilt
  refine ⟨(((i : ℕ) : ℚ) + 1) / ((nParts d p q : ℕ) : ℚ), ?_, ?_, hx.symm⟩
  · have hn := nParts_cast_pos d p q
    positivity
  · have hn := nParts_cast_pos d p q
    rw [div_le_one hn]
    have : (i : ℕ) + 1 ≤ nParts d p q := hilt
    exact_mod_cast this

theorem adjPairs_head (p q : Point) (rest : List Point) :
    (p, q) ∈ adjPairs (p :: q :: rest) := by
  simp [adjPairs]

theorem pointOnLine_cons {x : Point} (p q : Point) {rest : List Point}
    (h : pointOnLine x (q :: rest)) : pointOnLine x (p :: q :: rest) := by
  rcases h with ⟨ab, hab, hseg⟩
  exact ⟨ab, by simp [adjPairs, hab], hseg⟩

theorem mem_densify_onLine {d : ℚ} :
    ∀ (rest : List Point) (p x : Point),
      x ∈ densifySegs d p rest → pointOnLine x (p :: rest) := by
  intro rest
  induction rest with
  | nil => intro p x h; simp [densifySegs] at h
  | cons q rest' ih =>
    intro p x h
    rw [densifySegs] at h
    rcases List.mem_append.mp h with h' | h'
    · exact ⟨(p, q), adjPairs_head p q rest', mem_segPts_onSegment h'⟩
    · exact pointOnLine_cons p q (ih q x h')

theorem mem_segmentize_onLine {d : ℚ} {l : List Point} (hl : 2 ≤ l.length)
    {x : Point} (hx : x ∈ segmentizeLine d l) : pointOnLine x l := by
  match l, hl with
  | p :: q :: rest, _ =>
    rw [segmentizeLine] at hx
    rcases List.mem_cons.mp hx with rfl | h'
    · exact ⟨(x, q), adjPairs_head x q rest, ⟨0, le_refl 0, by norm_num, (lerp_zero x q).symm⟩⟩
    · exact mem_densify_onLine (q :: rest) p x h'

/- ## Deduplication lemmas -/

theorem uniqAux_nodup (l : List Point) :
    ∀ acc : List Point, acc.Nodup → (uniqAux acc l).Nodup := by
  induction l with
  | nil => intro acc h; simpa [uniqAux] using h
  | cons p rest ih =>
    intro acc h
    rw [uniqAux]
    by_cases hp : p ∈ acc
    · rw [if_pos hp]
      exact ih acc h
    · rw [if_neg hp]
      apply ih
      apply List.Nodup.append h (List.nodup_singleton p)
      intro a ha hpa
      rcases List.mem_singleton.mp hpa with rfl
      exact hp ha

theorem uniqAux_mem (l : List Point) :
    ∀ (acc : List Point) (x : Point), x ∈ uniqAux acc l ↔ x ∈ acc ∨ x ∈ l := by
  induction l with
  | nil => intro acc x; simp [uniqAux]
  | cons p rest ih =>
    intro acc x
    rw [uniqAux]
    by_cases hp : p ∈ acc
    · rw [if_pos hp, ih]
      constructor
      · rintro (h | h)
        · exact Or.inl h
        · exact Or.inr (List.mem_cons_of_mem _ h)
      · rintro (h | h)
        · exact Or.inl h
        · rcases List.mem_cons.mp h with rfl | h'
          · exact Or.inl hp
          · exact Or.inr h'
    · rw [if_neg hp, ih]
      simp only [List.mem_append, List.mem_singleton, List.mem_cons]
      tauto

theorem uniquePoints_nodup (l : List Point) : (uniquePoints l).Nodup :=
  uniqAux_nodup l [] List.nodup_nil

theorem uniquePoints_mem (l : List Point) (x : Point) :
    x ∈ uniquePoints l ↔ x ∈ l := by
  rw [uniquePoints, uniqAux_mem]
  simp

/- ## Endpoint membership in the densified line -/

theorem head_mem_segmentize (d : ℚ) (p : Point) (rest : List Point) :
    p ∈ segmentizeLine d (p :: rest) := by
  rw [segmentizeLine]
  exact List.mem_cons_self p _

theorem segPts_last_mem (d : ℚ) (p q : Point) : q ∈ segPts d p q := by
  have h := segPts_getLast? d p q
  have h2 : (segPts d p q).getLast (segPts_ne_nil d p q) = q := by
    have h' := List.getLast_mem_getLast? (segPts_ne_nil d p q)
    rw [h] at h'
    exact (by simpa using h' : q = _).symm
  have h3 := List.getLast_mem (segPts_ne_nil d p q)
  rwa [h2] at h3

theorem mem_segmentize_pair (d : ℚ) (p q : Point) :
    p ∈ segmentizeLine d [p, q] ∧ q ∈ segmentizeLine d [p, q] := by
  constructor
  · exact head_mem_segmentize d p [q]
  · rw [segmentizeLine, densifySegs, densifySegs]
    simp only [List.append_nil]
    exact List.mem_cons_of_mem p (segPts_last_mem d p q)

/-- C1: for every line (with at least two vertices), the
segmentize-at-50-then-extract-unique-points step produces exactly one output
row per unique point (the per-line point list has no duplicates), every
produced point lies on the original line, consecutive densified vertices are
at most 50 units apart (squared distance at most `50 ^ 2`), and a
nondegenerate line shorter than the spacing still yields at least its two
endpoints. -/
theorem segmentize_unique_points_spec (l : List Point) (hl : 2 ≤ l.length) :
    (segPointsOfLine 50 l).Nodup ∧
    (∀ x ∈ segPointsOfLine 50 l, pointOnLine x l) ∧
    List.Chain' (fun a b => sqDist a b ≤ 50 ^ 2) (segmentizeLine 50 l) ∧
    (∀ p q : Point, l = [p, q] → p ≠ q → sqDist p q < 50 ^ 2 →
      p ∈ segPointsOfLine 50 l ∧ q ∈ segPointsOfLine 50 l ∧
        2 ≤ (segPointsOfLine 50 l).length) := by
  refine ⟨uniquePoints_nodup _, ?_, segmentize_chain (by norm_num) l, ?_⟩
  · intro x hx
    exact mem_segmentize_onLine hl ((uniquePoints_mem _ x).mp hx)
  · rintro p q rfl hpq hshort
    have hm := mem_segmentize_pair 50 p q
    have hp : p ∈ segPointsOfLine 50 [p, q] := (uniquePoints_mem _ p).mpr hm.1
    have hq : q ∈ segPointsOfLine 50 [p, q] := (uniquePoints_mem _ q).mpr hm.2
    refine ⟨hp, hq, ?_⟩
    have hcard : 1 < (segPointsOfLine 50 [p, q]).toFinset.card := by
      apply Finset.one_lt_card.mpr
      exact ⟨p, List.mem_toFinset.mpr hp, q, List.mem_toFinset.mpr hq, hpq⟩
    have hle := (segPointsOfLine 50 [p, q]).toFinset_card_le
    omega

/-- Witness for C1 at the concrete two-vertex line from `(1,1)` to `(11,1)`
(length 10, shorter than the spacing 50). -/
theorem segmentize_unique_points_spec_witness :
    ((1 : ℚ), (1 : ℚ)) ∈ segPointsOfLine 50 [((1 : ℚ), (1 : ℚ)), ((11 : ℚ), (1 : ℚ))] ∧
    ((11 : ℚ), (1 : ℚ)) ∈ segPointsOfLine 50 [((1 : ℚ), (1 : ℚ)), ((11 : ℚ), (1 : ℚ))] := by
  have h := segmentize_unique_points_spec [((1 : ℚ), (1 : ℚ)), ((11 : ℚ), (1 : ℚ))]
    (by norm_num)
  have h4 := h.2.2.2 ((1 : ℚ), (1 : ℚ)) ((11 : ℚ), (1 : ℚ)) rfl
    (by simp only [ne_eq, Prod.mk.injEq]; norm_num)
    (by norm_num [sqDist])
  exact ⟨h4.1, h4.2.1⟩

/- ## Table-level helper lemmas -/

theorem toCrsLines_crs (tr : String → String → Point → Point) (c : String)
    (t : LinesTable) : (toCrsLines tr c t).crs = c := by
  rw [toCrsLines]; split <;> rfl

theorem toCrsPoints_crs (tr : String → String → Point → Point) (c : String)
    (t : PointsTable) : (toCrsPoints tr c t).crs = c := by
  rw [toCrsPoints]; split <;> rfl

theorem simplifyStep_crs (flag : Bool) (t : LinesTable) :
    (simplifyStep flag t).crs = t.crs := by
  rw [simplifyStep]; split <;> rfl

theorem filterMap_eq_map_of_forall {α β : Type} (f : α → Option β) (g : α → β) :
    ∀ l : List α, (∀ a ∈ l, f a = some (g a)) → l.filterMap f = l.map g := by
  intro l
  induction l with
  | nil => intro _; rfl
  | cons a rest ih =>
    intro h
    rw [List.filterMap_cons, h a (List.mem_cons_self a rest), List.map_cons,
      ih (fun b hb => h b (List.mem_cons_of_mem a hb))]

theorem segmentizeExplode_fst_lt (t : LinesTable) :
    ∀ r ∈ segmentizeExplode t, r.1 < t.rows.length := by
  intro r hr
  rw [segmentizeExplode] at hr
  rcases List.mem_flatMap.mp hr with ⟨ir, hir, hmem⟩
  rcases List.mem_map.mp hmem with ⟨jp, _, hjp⟩
  have h1 : r.1 = ir.1 := by rw [← hjp]
  rw [h1]
  rcases ir with ⟨i, row⟩
  have h2 := List.mk_mem_enum_iff_getElem?.mp hir
  by_contra hge
  rw [List.getElem?_eq_none (by omega)] at h2
  exact Option.noConfusion h2

theorem mergeRejoin_segmentize_eq_map (t : LinesTable) :
    mergeRejoin (segmentizeExplode t) t
      = (segmentizeExplode t).map
          (fun r => ((t.rows.getD r.1 ([], [])).1, r.2.2)) := by
  rw [mergeRejoin]
  apply filterMap_eq_map_of_forall
  intro r hr
  have h := segmentizeExplode_fst_lt t r hr
  rw [List.getElem?_eq_getElem h]
  simp [List.getD_eq_getElem?_getD, List.getElem?_eq_getElem h]

/-- C2: the rejoin is a pure disaggregation: the merged table is exactly the
exploded point list with each row's non-geometry attributes equal to the
attributes of the parent line row named by its integer back-reference
`level_0`. -/
theorem rejoin_preserves_attributes (t : LinesTable) :
    mergeRejoin (segmentizeExplode t) t
      = (segmentizeExplode t).map
          (fun r => ((t.rows.getD r.1 ([], [])).1, r.2.2)) :=
  mergeRejoin_segmentize_eq_map t

/-- C9: every exploded point row's back-reference `level_0` is a valid
position of the street table (which carries the default `0..n-1` index), and
the inner merge therefore neither drops nor duplicates point rows: the
merged table has exactly as many rows as the exploded point set. -/
theorem rejoin_row_count (t : LinesTable) :
    (∀ r ∈ segmentizeExplode t, r.1 < t.rows.length) ∧
    (mergeRejoin (segmentizeExplode t) t).length = (segmentizeExplode t).length := by
  refine ⟨segmentizeExplode_fst_lt t, ?_⟩
  rw [mergeRejoin_segmentize_eq_map t, List.length_map]

/-- C3: the exported flat file is always the full, unclipped point table in
the final reference system: its data rows are exactly the rows of the
reprojected full point table, it carries an explicit numeric row index
column `0..n-1`, and the table it is taken from is in EPSG:2263. -/
theorem export_full_unclipped (tr : String → String → Point → Point) (flag : Bool)
    (sidewalkFile widthsFile : LinesTable) :
    (exportedFile tr flag sidewalkFile widthsFile).map Prod.snd
        = (segmentizedFinal tr flag sidewalkFile widthsFile).rows ∧
    (exportedFile tr flag sidewalkFile widthsFile).map Prod.fst
        = List.range (segmentizedFinal tr flag sidewalkFile widthsFile).rows.length ∧
    (segmentizedFinal tr flag sidewalkFile widthsFile).crs = "EPSG:2263" := by
  refine ⟨?_, ?_, ?_⟩
  · rw [exportedFile, exportCSV, List.enum_eq_enumFrom, List.enumFrom_map_snd]
  · rw [exportedFile, exportCSV, List.enum_eq_enumFrom, List.enumFrom_map_fst,
      List.range_eq_range']
  · rw [segmentizedFinal, toCrsPoints_crs]

/-- C10: `nyc_ntas.crs = "EPSG:2263"` assigns the CRS metadata without
transforming the polygons: for any loaded boundary file, the coordinates are
unchanged and the CRS metadata reads EPSG:2263, whatever CRS the file was
actually written in. -/
theorem nta_crs_assign_metadata_only (fileRows : List (String × NtaPoly))
    (fileCrs : String) :
    (nycNtas fileRows fileCrs).rows = fileRows ∧
    (nycNtas fileRows fileCrs).crs = "EPSG:2263" :=
  ⟨rfl, rfl⟩

/-- C7 (amended): the flag `False` branch reprojects to EPSG:2263 before the
distance-based operations, and the point table is reprojected to EPSG:2263
after reconstruction under either flag; but the flag `True` branch feeds
`segmentize(50)` geometry in whatever CRS the widths file carries (no
reprojection happens before the distance-based step). -/
theorem crs_before_distance_ops_amended (tr : String → String → Point → Point)
    (flag : Bool) (sidewalkFile widthsFile : LinesTable) :
    (nycStreetsFinal tr false sidewalkFile widthsFile).crs = "EPSG:2263" ∧
    (segmentizedFinal tr flag sidewalkFile widthsFile).crs = "EPSG:2263" ∧
    (nycStreetsFinal tr true sidewalkFile widthsFile).crs = widthsFile.crs := by
  refine ⟨?_, ?_, ?_⟩
  · rw [nycStreetsFinal, simplifyStep_crs, loadStreets, if_neg (by simp), toCrsLines_crs]
  · rw [segmentizedFinal, toCrsPoints_crs]
  · rw [nycStreetsFinal, simplifyStep_crs, loadStreets, if_pos rfl]

/-- C6 (amended): with the flag `True` (sidewalk widths), the geometry that
feeds the segmentize-and-export path is exactly the loaded line geometry;
with the flag `False` it is exactly the loaded geometry with the
tolerance-10 simplification applied — and nothing else in either branch. -/
theorem simplify_feeds_export_amended (tr : String → String → Point → Point)
    (sidewalkFile widthsFile : LinesTable) :
    (nycStreetsFinal tr true sidewalkFile widthsFile).rows
        = (loadStreets tr true sidewalkFile widthsFile).rows ∧
    (nycStreetsFinal tr false sidewalkFile widthsFile).rows
        = (loadStreets tr false sidewalkFile widthsFile).rows.map
            (fun row => (row.1, dp 100 row.2)) := by
  constructor
  · rw [nycStreetsFinal, simplifyStep, if_pos rfl]
  · rw [nycStreetsFinal, simplifyStep, if_neg (by simp)]

/-- C5 (amended): for a line on which the tolerance-10 simplification is the
identity, running the pipeline with the flag `True` and with the flag
`False` (with that line as the sole row of either source file, stored in
EPSG:2263) derives the same number of points: the count depends only on the
geometry fed to `segmentize(50)` and the spacing. -/
theorem counts_flag_independent_amended (tr : String → String → Point → Point)
    (a : Attr) (l : List Point) (h : dp 100 l = l) :
    countsPerLine (nycStreetsFinal tr true
        { rows := [(a, l)], crs := "EPSG:2263" } { rows := [(a, l)], crs := "EPSG:2263" })
      = countsPerLine (nycStreetsFinal tr false
        { rows := [(a, l)], crs := "EPSG:2263" } { rows := [(a, l)], crs := "EPSG:2263" }) := by
  rw [nycStreetsFinal, nycStreetsFinal, simplifyStep, simplifyStep, if_pos rfl,
    if_neg (by simp), loadStreets, loadStreets, if_pos rfl, if_neg (by simp),
    toCrsLines, if_pos rfl]
  simp [countsPerLine, h]

/-- C8: every point row retained by clipping the reprojected point table to
the named boundary polygons also appears among the data rows of the exported
full table: the clipped visualisation subset is a subset of the export. -/
theorem clip_subset_export (inside : Point → NtaPoly → Bool)
    (tr : String → String → Point → Point) (flag : Bool)
    (sidewalkFile widthsFile : LinesTable)
    (ntaRows : List (String × NtaPoly)) (fileCrs noi : String)
    (x : Attr × Point)
    (hx : x ∈ (clipPoints inside (segmentizedFinal tr flag sidewalkFile widthsFile)
        (nycNtas ntaRows fileCrs) noi).rows) :
    x ∈ (exportedFile tr flag sidewalkFile widthsFile).map Prod.snd := by
  rw [exportedFile, exportCSV, List.enum_eq_enumFrom, List.enumFrom_map_snd]
  rw [clipPoints] at hx
  exact List.mem_of_mem_filter hx

/- ## Concrete evaluations -/

theorem cs100 : ceilSqrtQ ((100 : ℚ) / 50 ^ 2) = 1 := by
  apply ceilSqrtQ_eq
  · norm_num
  · intro m hm
    interval_cases m <;> norm_num

theorem cs425 : ceilSqrtQ ((425 : ℚ) / 50 ^ 2) = 1 := by
  apply ceilSqrtQ_eq
  · norm_num
  · intro m hm
    interval_cases m <;> norm_num

theorem cs500 : ceilSqrtQ ((500 : ℚ) / 50 ^ 2) = 1 := by
  apply ceilSqrtQ_eq
  · norm_num
  · intro m hm
    interval_cases m <;> norm_num

theorem cs3600 : ceilSqrtQ ((3600 : ℚ) / 50 ^ 2) = 2 := by
  apply ceilSqrtQ_eq
  · norm_num
  · intro m hm
    interval_cases m <;> norm_num

theorem cs14400 : ceilSqrtQ ((14400 : ℚ) / 50 ^ 2) = 3 := by
  apply ceilSqrtQ_eq
  · norm_num
  · intro m hm
    interval_cases m <;> norm_num

theorem spl_l10 : segPointsOfLine 50 [((5 : ℚ), (1 : ℚ)), ((15 : ℚ), (1 : ℚ))]
    = [((5 : ℚ), (1 : ℚ)), ((15 : ℚ), (1 : ℚ))] := by
  have h1 : nParts 50 ((5 : ℚ), (1 : ℚ)) ((15 : ℚ), (1 : ℚ)) = 1 := by
    rw [nParts_eval 100 (by norm_num [sqDist]) cs100]
    decide
  simp only [segPointsOfLine, segmentizeLine, densifySegs, segPts, h1]
  norm_num [uniquePoints, uniqAux, lerp, List.range_succ, Prod.ext_iff]

theorem spl_l60 : segPointsOfLine 50 [((5 : ℚ), (2 : ℚ)), ((65 : ℚ), (2 : ℚ))]
    = [((5 : ℚ), (2 : ℚ)), ((35 : ℚ), (2 : ℚ)), ((65 : ℚ), (2 : ℚ))] := by
  have h1 : nParts 50 ((5 : ℚ), (2 : ℚ)) ((65 : ℚ), (2 : ℚ)) = 2 := by
    rw [nParts_eval 3600 (by norm_num [sqDist]) cs3600]
    decide
  simp only [segPointsOfLine, segmentizeLine, densifySegs, segPts, h1]
  norm_num [uniquePoints, uniqAux, lerp, List.range_succ, Prod.ext_iff]

theorem spl_l120 : segPointsOfLine 50 [((5 : ℚ), (3 : ℚ)), ((125 : ℚ), (3 : ℚ))]
    = [((5 : ℚ), (3 : ℚ)), ((45 : ℚ), (3 : ℚ)), ((85 : ℚ), (3 : ℚ)), ((125 : ℚ), (3 : ℚ))] := by
  have h1 : nParts 50 ((5 : ℚ), (3 : ℚ)) ((125 : ℚ), (3 : ℚ)) = 3 := by
    rw [nParts_eval 14400 (by norm_num [sqDist]) cs14400]
    decide
  simp only [segPointsOfLine, segmentizeLine, densifySegs, segPts, h1]
  norm_num [uniquePoints, uniqAux, lerp, List.range_succ, Prod.ext_iff]

theorem spl_line4 : segPointsOfLine 50
    [((2 : ℚ), (1 : ℚ)), ((22 : ℚ), (6 : ℚ)), ((42 : ℚ), (-4 : ℚ)), ((62 : ℚ), (1 : ℚ))]
    = [((2 : ℚ), (1 : ℚ)), ((22 : ℚ), (6 : ℚ)), ((42 : ℚ), (-4 : ℚ)), ((62 : ℚ), (1 : ℚ))] := by
  have h1 : nParts 50 ((2 : ℚ), (1 : ℚ)) ((22 : ℚ), (6 : ℚ)) = 1 := by
    rw [nParts_eval 425 (by norm_num [sqDist]) cs425]
    decide
  have h2 : nParts 50 ((22 : ℚ), (6 : ℚ)) ((42 : ℚ), (-4 : ℚ)) = 1 := by
    rw [nParts_eval 500 (by norm_num [sqDist]) cs500]
    decide
  have h3 : nParts 50 ((42 : ℚ), (-4 : ℚ)) ((62 : ℚ), (1 : ℚ)) = 1 := by
    rw [nParts_eval 425 (by norm_num [sqDist]) cs425]
    decide
  simp only [segPointsOfLine, segmentizeLine, densifySegs, segPts, h1, h2, h3]
  norm_num [uniquePoints, uniqAux, lerp, List.range_succ, Prod.ext_iff]

theorem spl_simp4 : segPointsOfLine 50 [((2 : ℚ), (1 : ℚ)), ((62 : ℚ), (1 : ℚ))]
    = [((2 : ℚ), (1 : ℚ)), ((32 : ℚ), (1 : ℚ)), ((62 : ℚ), (1 : ℚ))] := by
  have h1 : nParts 50 ((2 : ℚ), (1 : ℚ)) ((62 : ℚ), (1 : ℚ)) = 2 := by
    rw [nParts_eval 3600 (by norm_num [sqDist]) cs3600]
    decide
  simp only [segPointsOfLine, segmentizeLine, densifySegs, segPts, h1]
  norm_num [uniquePoints, uniqAux, lerp, List.range_succ, Prod.ext_iff]

theorem spl_w8 : segPointsOfLine 50 [((1 : ℚ), (2 : ℚ)), ((11 : ℚ), (2 : ℚ))]
    = [((1 : ℚ), (2 : ℚ)), ((11 : ℚ), (2 : ℚ))] := by
  have h1 : nParts 50 ((1 : ℚ), (2 : ℚ)) ((11 : ℚ), (2 : ℚ)) = 1 := by
    rw [nParts_eval 100 (by norm_num [sqDist]) cs100]
    decide
  simp only [segPointsOfLine, segmentizeLine, densifySegs, segPts, h1]
  norm_num [uniquePoints, uniqAux, lerp, List.range_succ, Prod.ext_iff]

theorem seg1 : segSqDist ((2 : ℚ), (1 : ℚ)) ((62 : ℚ), (1 : ℚ)) ((22 : ℚ), (6 : ℚ)) = 25 := by
  norm_num [segSqDist, sqDist, lerp, min_def, max_def]

theorem seg2 : segSqDist ((2 : ℚ), (1 : ℚ)) ((62 : ℚ), (1 : ℚ)) ((42 : ℚ), (-4 : ℚ)) = 25 := by
  norm_num [segSqDist, sqDist, lerp, min_def, max_def]

theorem far_line4 : farthestIdx 100
    [((2 : ℚ), (1 : ℚ)), ((22 : ℚ), (6 : ℚ)), ((42 : ℚ), (-4 : ℚ)), ((62 : ℚ), (1 : ℚ))]
    = (0, 25) := by
  rw [farthestIdx]
  norm_num [List.head!, List.getLast!, List.getLast?, maxIdx, seg1, seg2]

theorem dp_line4 : dp 100
    [((2 : ℚ), (1 : ℚ)), ((22 : ℚ), (6 : ℚ)), ((42 : ℚ), (-4 : ℚ)), ((62 : ℚ), (1 : ℚ))]
    = [((2 : ℚ), (1 : ℚ)), ((62 : ℚ), (1 : ℚ))] := by
  rw [dp]
  norm_num [far_line4, List.head!, List.getLast!, List.getLast?]

theorem dp_short : dp 100 [((1 : ℚ), (3 : ℚ)), ((11 : ℚ), (3 : ℚ))]
    = [((1 : ℚ), (3 : ℚ)), ((11 : ℚ), (3 : ℚ))] := by
  rw [dp]
  norm_num

theorem sege_T4 : segmentizeExplode
    { rows := [([("street", "a")], [((5 : ℚ), (1 : ℚ)), ((15 : ℚ), (1 : ℚ))]),
               ([("street", "b")], [((5 : ℚ), (2 : ℚ)), ((65 : ℚ), (2 : ℚ))]),
               ([("street", "c")], [((5 : ℚ), (3 : ℚ)), ((125 : ℚ), (3 : ℚ))])],
      crs := "EPSG:2263" }
    = [(0, 0, ((5 : ℚ), (1 : ℚ))), (0, 1, ((15 : ℚ), (1 : ℚ))),
       (1, 0, ((5 : ℚ), (2 : ℚ))), (1, 1, ((35 : ℚ), (2 : ℚ))), (1, 2, ((65 : ℚ), (2 : ℚ))),
       (2, 0, ((5 : ℚ), (3 : ℚ))), (2, 1, ((45 : ℚ), (3 : ℚ))), (2, 2, ((85 : ℚ), (3 : ℚ))),
       (2, 3, ((125 : ℚ), (3 : ℚ)))] := by
  simp only [segmentizeExplode, List.enum_eq_enumFrom, List.enumFrom_cons, List.enumFrom_nil,
    List.flatMap_cons, List.flatMap_nil, spl_l10, spl_l60, spl_l120, List.map_cons, List.map_nil,
    List.append_nil, List.cons_append, List.nil_append]

theorem merge_T4 : mergeRejoin (segmentizeExplode
    { rows := [([("street", "a")], [((5 : ℚ), (1 : ℚ)), ((15 : ℚ), (1 : ℚ))]),
               ([("street", "b")], [((5 : ℚ), (2 : ℚ)), ((65 : ℚ), (2 : ℚ))]),
               ([("street", "c")], [((5 : ℚ), (3 : ℚ)), ((125 : ℚ), (3 : ℚ))])],
      crs := "EPSG:2263" })
    { rows := [([("street", "a")], [((5 : ℚ), (1 : ℚ)), ((15 : ℚ), (1 : ℚ))]),
               ([("street", "b")], [((5 : ℚ), (2 : ℚ)), ((65 : ℚ), (2 : ℚ))]),
               ([("street", "c")], [((5 : ℚ), (3 : ℚ)), ((125 : ℚ), (3 : ℚ))])],
      crs := "EPSG:2263" }
    = [([("street", "a")], ((5 : ℚ), (1 : ℚ))), ([("street", "a")], ((15 : ℚ), (1 : ℚ))),
       ([("street", "b")], ((5 : ℚ), (2 : ℚ))), ([("street", "b")], ((35 : ℚ), (2 : ℚ))),
       ([("street", "b")], ((65 : ℚ), (2 : ℚ))),
       ([("street", "c")], ((5 : ℚ), (3 : ℚ))), ([("street", "c")], ((45 : ℚ), (3 : ℚ))),
       ([("street", "c")], ((85 : ℚ), (3 : ℚ))), ([("street", "c")], ((125 : ℚ), (3 : ℚ)))] := by
  rw [sege_T4]
  decide

theorem counts_T4 : countsPerLine
    { rows := [([("street", "a")], [((5 : ℚ), (1 : ℚ)), ((15 : ℚ), (1 : ℚ))]),
               ([("street", "b")], [((5 : ℚ), (2 : ℚ)), ((65 : ℚ), (2 : ℚ))]),
               ([("street", "c")], [((5 : ℚ), (3 : ℚ)), ((125 : ℚ), (3 : ℚ))])],
      crs := "EPSG:2263" }
    = [2, 3, 4] := by
  simp [countsPerLine, spl_l10, spl_l60, spl_l120]


/-- C4 counterexample: on 3 input lines of lengths 10, 60 and 120 at spacing
50 the unique-point counts are 2, 3 and 4 (not 2, 2 and 3) and the rejoined
table has 9 rows (not 7): the equal-parts densifier inserts vertices at
length/ceil(length/50) steps, not at multiples of 50. -/
theorem scenario_7rows_counterexample :
    countsPerLine
      { rows :=
        [([("street", "a")], [((5 : ℚ), (1 : ℚ)), ((15 : ℚ), (1 : ℚ))]),
          ([("street", "b")], [((5 : ℚ), (2 : ℚ)), ((65 : ℚ), (2 : ℚ))]),
          ([("street", "c")], [((5 : ℚ), (3 : ℚ)), ((125 : ℚ), (3 : ℚ))])],
        crs := "EPSG:2263" }
      = [2, 3, 4] ∧
    (mergeRejoin (segmentizeExplode
      { rows :=
        [([("street", "a")], [((5 : ℚ), (1 : ℚ)), ((15 : ℚ), (1 : ℚ))]),
          ([("street", "b")], [((5 : ℚ), (2 : ℚ)), ((65 : ℚ), (2 : ℚ))]),
          ([("street", "c")], [((5 : ℚ), (3 : ℚ)), ((125 : ℚ), (3 : ℚ))])],
        crs := "EPSG:2263" })
      { rows :=
        [([("street", "a")], [((5 : ℚ), (1 : ℚ)), ((15 : ℚ), (1 : ℚ))]),
          ([("street", "b")], [((5 : ℚ), (2 : ℚ)), ((65 : ℚ), (2 : ℚ))]),
          ([("street", "c")], [((5 : ℚ), (3 : ℚ)), ((125 : ℚ), (3 : ℚ))])],
        crs := "EPSG:2263" }).length = 9 ∧
    ¬ (countsPerLine
      { rows :=
        [([("street", "a")], [((5 : ℚ), (1 : ℚ)), ((15 : ℚ), (1 : ℚ))]),
          ([("street", "b")], [((5 : ℚ), (2 : ℚ)), ((65 : ℚ), (2 : ℚ))]),
          ([("street", "c")], [((5 : ℚ), (3 : ℚ)), ((125 : ℚ), (3 : ℚ))])],
        crs := "EPSG:2263" }
      = [2, 2, 3] ∧
      (mergeRejoin (segmentizeExplode
      { rows :=
        [([("street", "a")], [((5 : ℚ), (1 : ℚ)), ((15 : ℚ), (1 : ℚ))]),
          ([("street", "b")], [((5 : ℚ), (2 : ℚ)), ((65 : ℚ), (2 : ℚ))]),
          ([("street", "c")], [((5 : ℚ), (3 : ℚ)), ((125 : ℚ), (3 : ℚ))])],
        crs := "EPSG:2263" })
      { rows :=
        [([("street", "a")], [((5 : ℚ), (1 : ℚ)), ((15 : ℚ), (1 : ℚ))]),
          ([("street", "b")], [((5 : ℚ), (2 : ℚ)), ((65 : ℚ), (2 : ℚ))]),
          ([("street", "c")], [((5 : ℚ), (3 : ℚ)), ((125 : ℚ), (3 : ℚ))])],
        crs := "EPSG:2263" }).length = 7) := by
  refine ⟨counts_T4, by rw [merge_T4]; decide, ?_⟩
  rintro ⟨h1, h2⟩
  rw [counts_T4] at h1
  exact absurd h1 (by decide)

/-- C4 (amended): for the 3 input lines of lengths 10, 60 and 120 at spacing
50, the unique-point counts are 2, 3 and 4 (one endpoint plus every
length/ceil(length/50) step), the rejoined table has exactly 2+3+4 = 9 rows,
and every row inherits its source line's attributes unchanged. -/
theorem scenario_counts_amended :
    countsPerLine
      { rows :=
        [([("street", "a")], [((5 : ℚ), (1 : ℚ)), ((15 : ℚ), (1 : ℚ))]),
          ([("street", "b")], [((5 : ℚ), (2 : ℚ)), ((65 : ℚ), (2 : ℚ))]),
          ([("street", "c")], [((5 : ℚ), (3 : ℚ)), ((125 : ℚ), (3 : ℚ))])],
        crs := "EPSG:2263" }
      = [2, 3, 4] ∧
    mergeRejoin (segmentizeExplode
      { rows :=
        [([("street", "a")], [((5 : ℚ), (1 : ℚ)), ((15 : ℚ), (1 : ℚ))]),
          ([("street", "b")], [((5 : ℚ), (2 : ℚ)), ((65 : ℚ), (2 : ℚ))]),
          ([("street", "c")], [((5 : ℚ), (3 : ℚ)), ((125 : ℚ), (3 : ℚ))])],
        crs := "EPSG:2263" })
      { rows :=
        [([("street", "a")], [((5 : ℚ), (1 : ℚ)), ((15 : ℚ), (1 : ℚ))]),
          ([("street", "b")], [((5 : ℚ), (2 : ℚ)), ((65 : ℚ), (2 : ℚ))]),
          ([("street", "c")], [((5 : ℚ), (3 : ℚ)), ((125 : ℚ), (3 : ℚ))])],
        crs := "EPSG:2263" }
      = [([("street", "a")], ((5 : ℚ), (1 : ℚ))), ([("street", "a")], ((15 : ℚ), (1 : ℚ))),
        ([("street", "b")], ((5 : ℚ), (2 : ℚ))), ([("street", "b")], ((35 : ℚ), (2 : ℚ))),
        ([("street", "b")], ((65 : ℚ), (2 : ℚ))),
        ([("street", "c")], ((5 : ℚ), (3 : ℚ))), ([("street", "c")], ((45 : ℚ), (3 : ℚ))),
        ([("street", "c")], ((85 : ℚ), (3 : ℚ))), ([("street", "c")], ((125 : ℚ), (3 : ℚ)))] :=
  ⟨counts_T4, merge_T4⟩

/-- C5 counterexample: a single 4-vertex line on which `simplify(10)` is not
the identity yields 4 derived points when the flag is `True` but only 3 when
the flag is `False`, although the same geometry was loaded. -/
theorem counts_flag_counterexample :
    countsPerLine (nycStreetsFinal (fun _ _ p => p) true
      { rows :=
        [([("street", "x")],
          [((2 : ℚ), (1 : ℚ)), ((22 : ℚ), (6 : ℚ)), ((42 : ℚ), (-4 : ℚ)), ((62 : ℚ), (1 : ℚ))])],
        crs := "EPSG:2263" }
      { rows :=
        [([("street", "x")],
          [((2 : ℚ), (1 : ℚ)), ((22 : ℚ), (6 : ℚ)), ((42 : ℚ), (-4 : ℚ)), ((62 : ℚ), (1 : ℚ))])],
        crs := "EPSG:2263" }) = [4] ∧
    countsPerLine (nycStreetsFinal (fun _ _ p => p) false
      { rows :=
        [([("street", "x")],
          [((2 : ℚ), (1 : ℚ)), ((22 : ℚ), (6 : ℚ)), ((42 : ℚ), (-4 : ℚ)), ((62 : ℚ), (1 : ℚ))])],
        crs := "EPSG:2263" }
      { rows :=
        [([("street", "x")],
          [((2 : ℚ), (1 : ℚ)), ((22 : ℚ), (6 : ℚ)), ((42 : ℚ), (-4 : ℚ)), ((62 : ℚ), (1 : ℚ))])],
        crs := "EPSG:2263" }) = [3] ∧
    ([4] : List ℕ) ≠ [3] := by
  refine ⟨?_, ?_, by decide⟩
  · rw [nycStreetsFinal, simplifyStep, if_pos rfl, loadStreets, if_pos rfl]
    simp [countsPerLine, spl_line4]
  · rw [nycStreetsFinal, simplifyStep, if_neg (by simp), loadStreets, if_neg (by simp),
      toCrsLines, if_pos rfl]
    simp only [countsPerLine, List.map_cons, List.map_nil, dp_line4, spl_simp4]
    decide

/-- C6 counterexample: with the flag `False`, the street geometry that feeds
the segmentize-and-export path is not the loaded line geometry: the
conditional cell overwrites it with `simplify(10)`. -/
theorem simplify_feeds_export_counterexample :
    (nycStreetsFinal (fun _ _ p => p) false
      { rows :=
        [([("street", "x")],
          [((2 : ℚ), (1 : ℚ)), ((22 : ℚ), (6 : ℚ)), ((42 : ℚ), (-4 : ℚ)), ((62 : ℚ), (1 : ℚ))])],
        crs := "EPSG:2263" }
      { rows :=
        [([("street", "x")],
          [((2 : ℚ), (1 : ℚ)), ((22 : ℚ), (6 : ℚ)), ((42 : ℚ), (-4 : ℚ)), ((62 : ℚ), (1 : ℚ))])],
        crs := "EPSG:2263" }).rows
      ≠ (loadStreets (fun _ _ p => p) false
      { rows :=
        [([("street", "x")],
          [((2 : ℚ), (1 : ℚ)), ((22 : ℚ), (6 : ℚ)), ((42 : ℚ), (-4 : ℚ)), ((62 : ℚ), (1 : ℚ))])],
        crs := "EPSG:2263" }
      { rows :=
        [([("street", "x")],
          [((2 : ℚ), (1 : ℚ)), ((22 : ℚ), (6 : ℚ)), ((42 : ℚ), (-4 : ℚ)), ((62 : ℚ), (1 : ℚ))])],
        crs := "EPSG:2263" }).rows := by
  rw [nycStreetsFinal, simplifyStep, if_neg (by simp), loadStreets, if_neg (by simp),
    toCrsLines, if_pos rfl]
  simp only [List.map_cons, List.map_nil, dp_line4]
  decide

/-- C7 counterexample: with the flag `True` (the notebook's actual setting)
the widths file is loaded without reprojection, so a widths file stored in
EPSG:4326 reaches `segmentize(50)` with that CRS, not EPSG:2263. -/
theorem crs_before_distance_ops_counterexample :
    (nycStreetsFinal (fun _ _ p => p) true
      { rows := [], crs := "EPSG:2263" }
      { rows := [], crs := "EPSG:4326" }).crs ≠ "EPSG:2263" := by
  rw [nycStreetsFinal, simplifyStep_crs, loadStreets, if_pos rfl]
  decide

/-- Witness for the amended C5 at a 2-vertex line fixed by `simplify(10)`. -/
theorem counts_flag_independent_amended_witness :
    dp 100 [((1 : ℚ), (3 : ℚ)), ((11 : ℚ), (3 : ℚ))]
        = [((1 : ℚ), (3 : ℚ)), ((11 : ℚ), (3 : ℚ))] ∧
    countsPerLine (nycStreetsFinal (fun _ _ p => p) true
      { rows := [([("s", "w")], [((1 : ℚ), (3 : ℚ)), ((11 : ℚ), (3 : ℚ))])],
        crs := "EPSG:2263" }
      { rows := [([("s", "w")], [((1 : ℚ), (3 : ℚ)), ((11 : ℚ), (3 : ℚ))])],
        crs := "EPSG:2263" })
      = countsPerLine (nycStreetsFinal (fun _ _ p => p) false
      { rows := [([("s", "w")], [((1 : ℚ), (3 : ℚ)), ((11 : ℚ), (3 : ℚ))])],
        crs := "EPSG:2263" }
      { rows := [([("s", "w")], [((1 : ℚ), (3 : ℚ)), ((11 : ℚ), (3 : ℚ))])],
        crs := "EPSG:2263" }) :=
  ⟨dp_short, counts_flag_independent_amended (fun _ _ p => p) [("s", "w")]
    [((1 : ℚ), (3 : ℚ)), ((11 : ℚ), (3 : ℚ))] dp_short⟩

theorem merge_W8 : mergeRejoin (segmentizeExplode
    { rows := [([("w", "8")], [((1 : ℚ), (2 : ℚ)), ((11 : ℚ), (2 : ℚ))])],
        crs := "EPSG:2263" })
    { rows := [([("w", "8")], [((1 : ℚ), (2 : ℚ)), ((11 : ℚ), (2 : ℚ))])],
        crs := "EPSG:2263" }
    = [([("w", "8")], ((1 : ℚ), (2 : ℚ))), ([("w", "8")], ((11 : ℚ), (2 : ℚ)))] := by
  have hsege : segmentizeExplode
      { rows := [([("w", "8")], [((1 : ℚ), (2 : ℚ)), ((11 : ℚ), (2 : ℚ))])],
        crs := "EPSG:2263" }
      = [(0, 0, ((1 : ℚ), (2 : ℚ))), (0, 1, ((11 : ℚ), (2 : ℚ)))] := by
    simp only [segmentizeExplode, List.enum_eq_enumFrom, List.enumFrom_cons, List.enumFrom_nil,
      List.flatMap_cons, List.flatMap_nil, spl_w8, List.map_cons, List.map_nil,
      List.append_nil, List.cons_append, List.nil_append]
  rw [hsege]
  decide

theorem segfinal_W8 : segmentizedFinal (fun _ _ p => p) true
    { rows := [([("w", "8")], [((1 : ℚ), (2 : ℚ)), ((11 : ℚ), (2 : ℚ))])],
        crs := "EPSG:2263" }
    { rows := [([("w", "8")], [((1 : ℚ), (2 : ℚ)), ((11 : ℚ), (2 : ℚ))])],
        crs := "EPSG:2263" }
    = { rows := [([("w", "8")], ((1 : ℚ), (2 : ℚ))), ([("w", "8")], ((11 : ℚ), (2 : ℚ)))],
        crs := "EPSG:2263" } := by
  rw [segmentizedFinal, nycStreetsFinal, simplifyStep, if_pos rfl, loadStreets, if_pos rfl,
    segmentizedRaw, merge_W8, toCrsPoints, if_pos rfl]

/-- Witness for C8: a concrete clipped row that indeed appears in the
exported table. -/
theorem clip_subset_export_witness :
    (([("w", "8")], ((1 : ℚ), (2 : ℚ))) ∈ (clipPoints (fun _ _ => true)
        (segmentizedFinal (fun _ _ p => p) true
      { rows := [([("w", "8")], [((1 : ℚ), (2 : ℚ)), ((11 : ℚ), (2 : ℚ))])],
        crs := "EPSG:2263" }
      { rows := [([("w", "8")], [((1 : ℚ), (2 : ℚ)), ((11 : ℚ), (2 : ℚ))])],
        crs := "EPSG:2263" })
        (nycNtas [("Greenpoint", [])] "EPSG:4326") "Greenpoint").rows) ∧
    (([("w", "8")], ((1 : ℚ), (2 : ℚ))) ∈ (exportedFile (fun _ _ p => p) true
      { rows := [([("w", "8")], [((1 : ℚ), (2 : ℚ)), ((11 : ℚ), (2 : ℚ))])],
        crs := "EPSG:2263" }
      { rows := [([("w", "8")], [((1 : ℚ), (2 : ℚ)), ((11 : ℚ), (2 : ℚ))])],
        crs := "EPSG:2263" }).map Prod.snd) := by
  have hmem : ([("w", "8")], ((1 : ℚ), (2 : ℚ))) ∈ (clipPoints (fun _ _ => true)
      (segmentizedFinal (fun _ _ p => p) true
      { rows := [([("w", "8")], [((1 : ℚ), (2 : ℚ)), ((11 : ℚ), (2 : ℚ))])],
        crs := "EPSG:2263" }
      { rows := [([("w", "8")], [((1 : ℚ), (2 : ℚ)), ((11 : ℚ), (2 : ℚ))])],
        crs := "EPSG:2263" })
      (nycNtas [("Greenpoint", [])] "EPSG:4326") "Greenpoint").rows := by
    rw [segfinal_W8]
    decide
  exact ⟨hmem, clip_subset_export (fun _ _ => true) (fun _ _ p => p) true _ _
    [("Greenpoint", [])] "EPSG:4326" "Greenpoint" _ hmem⟩
